import Mathlib

-- Verification of the BuildBuddy CI action runner (enterprise/server/cmd/action_runner).
-- The Go source is shallowly embedded: pure helpers become Lean functions, the
-- cooperative tasks become explicit trace-producing functions over their inputs
-- (queue contents, send results, wakeups), and Go slices and strings become lists.

namespace ActionRunner

/-! ### Workflow config data model and trigger matching -/

-- Field structure of workflowconf.Action as used by the runner: a name, a list
-- of bazel command strings, and optional triggers with optional push and
-- pull_request sub-configs, each holding a list of branch names.
structure BranchTriggerConfig where
  branches : List String
deriving DecidableEq

structure Triggers where
  push : Option BranchTriggerConfig
  pullRequest : Option BranchTriggerConfig
deriving DecidableEq

structure Action where
  name : String
  bazelCommands : List String
  triggers : Option Triggers
deriving DecidableEq

def pushEventName : String := "push"

def pullRequestEventName : String := "pull_request"

-- matchesAnyBranch: linear scan, returns true on the first equal branch.
def matchesAnyBranch (branches : List String) (branch : String) : Bool :=
  branches.any (fun b => b == branch)

-- One guarded early return of matchesAnyTrigger: fires only when the trigger
-- config is present and the event name equals the expected name.
def triggerCaseResult (cfg : Option BranchTriggerConfig) (evName event branch : String) :
    Option Bool :=
  match cfg with
  | some c => if event == evName then some (matchesAnyBranch c.branches branch) else none
  | none => none

-- matchesAnyTrigger from the source: nil triggers means false; then the push
-- case, then the pull_request case, then false.
def matchesAnyTrigger (action : Action) (event branch : String) : Bool :=
  match action.triggers with
  | none => false
  | some triggers =>
    match triggerCaseResult triggers.push pushEventName event branch with
    | some r => r
    | none =>
      match triggerCaseResult triggers.pullRequest pullRequestEventName event branch with
      | some r => r
      | none => false

/-! ### Shell quoting for log output -/

def singleQuoteChar : Char := Char.ofNat 39

def doubleQuoteChar : Char := Char.ofNat 34

-- RE2 word character (ASCII only): [0-9A-Za-z_].
def goWordChar (c : Char) : Bool :=
  (decide (Char.ofNat 48 ≤ c) && decide (c ≤ Char.ofNat 57)) ||
  (decide (Char.ofNat 65 ≤ c) && decide (c ≤ Char.ofNat 90)) ||
  (decide (Char.ofNat 97 ≤ c) && decide (c ≤ Char.ofNat 122)) ||
  c == Char.ofNat 95

-- A character matching the regexp shellCharsRequiringQuote = [^\w@%+=:,./-].
def shellCharRequiringQuote (c : Char) : Bool :=
  !(goWordChar c || c == '@' || c == '%' || c == '+' || c == '=' ||
    c == ':' || c == ',' || c == '.' || c == '/' || c == '-')

-- regexp.MatchString: true iff some character of s matches the class.
def shellCharsRequiringQuoteMatch (s : List Char) : Bool :=
  s.any shellCharRequiringQuote

-- strings.ReplaceAll(s, singleQuote, singleQuote doubleQuote singleQuote
-- doubleQuote singleQuote): the pattern is a single character, so ReplaceAll
-- acts character by character.
def escapeSingleQuote (c : Char) : List Char :=
  if c == singleQuoteChar then
    [singleQuoteChar, doubleQuoteChar, singleQuoteChar, doubleQuoteChar, singleQuoteChar]
  else [c]

def replaceAllSingleQuotes (s : List Char) : List Char :=
  s.flatMap escapeSingleQuote

-- toShellToken from the source.
def toShellToken (s : List Char) : List Char :=
  if shellCharsRequiringQuoteMatch s then
    singleQuoteChar :: (replaceAllSingleQuotes s ++ [singleQuoteChar])
  else s

-- The safe character set exactly as the claim states it: [A-Za-z0-9@%+=:,./-]
-- (note: no underscore).
def claimSafeChar (c : Char) : Bool :=
  (decide (Char.ofNat 65 ≤ c) && decide (c ≤ Char.ofNat 90)) ||
  (decide (Char.ofNat 97 ≤ c) && decide (c ≤ Char.ofNat 122)) ||
  (decide (Char.ofNat 48 ≤ c) && decide (c ≤ Char.ofNat 57)) ||
  c == '@' || c == '%' || c == '+' || c == '=' ||
  c == ':' || c == ',' || c == '.' || c == '/' || c == '-'

-- The safe set amended with underscore, matching the \w of the source regexp.
def amendedSafeChar (c : Char) : Bool :=
  claimSafeChar c || c == Char.ofNat 95

/-! ### Invocation URL -/

-- strings.HasSuffix(s, slash): the last character is a slash.
def hasSlashSuffix (s : List Char) : Bool :=
  s.getLast? == some '/'

-- invocationURL from the source, with the bes_results_url flag value passed
-- explicitly.
def invocationURL (besResultsURL : List Char) (invocationID : List Char) : List Char :=
  (if hasSlashSuffix besResultsURL then besResultsURL else besResultsURL ++ ['/']) ++
    invocationID

-- Drops one trailing slash when present (used only to state the property).
def stripTrailingSlash (s : List Char) : List Char :=
  if hasSlashSuffix s then s.dropLast else s

/-! ### bazelArgs -/

-- A Go runtime panic (index out of range on tokens[0]).
inductive GoPanic
  | indexOutOfRange
deriving DecidableEq

-- bazelArgs from the source, applied to the token list returned by a
-- successful shlex.Split call. The unguarded tokens[0] access is modelled by
-- the explicit bounds check Go performs at runtime.
def bazelArgs (tokens : List String) : Except GoPanic (List String) :=
  if h : 0 < tokens.length then
    let t0 := tokens.get ⟨0, h⟩
    .ok (if t0 == "bazel" || t0 == "bazelisk" then tokens.drop 1 else tokens)
  else .error .indexOutOfRange

/-! ### Build-event publisher task -/

-- Wire payload of an ordered envelope: either a wrapped bazel build event
-- (events abstracted by a numeric id) or the ComponentStreamFinished(FINISHED)
-- marker.
inductive WirePayload
  | bazelEvent (e : Nat)
  | streamFinished
deriving DecidableEq

-- Observable steps of buildEventPublisher.run: a Send attempt on the stream
-- with its sequence number and payload, latching an error, half-closing the
-- send side, awaiting the ack-receiver (receive on doneReceiving), and the
-- deferred signal on the done channel.
inductive RunStep
  | latchError
  | send (seq : Nat) (p : WirePayload)
  | closeSend
  | awaitAcks
  | signalDone
deriving DecidableEq

-- Environment of one run of the publisher task: whether dialing and opening
-- the stream succeed, whether the Send at each sequence number succeeds, and
-- whether CloseSend succeeds.
structure StreamEnv where
  dialOk : Bool
  openOk : Bool
  sendOk : Nat → Bool
  closeOk : Bool

-- The for-loop of buildEventPublisher.run over the queued events (none is the
-- sentinel enqueued by Wait). Returns the steps taken and whether the loop
-- returned (false means the task is blocked forever on an empty queue, so the
-- deferred done-signal never runs).
def runLoop (env : StreamEnv) : Nat → List (Option Nat) → List RunStep × Bool
  | _, [] => ([], false)
  | seqNo, none :: _ =>
    if env.sendOk seqNo then
      if env.closeOk then ([.send seqNo .streamFinished, .closeSend, .awaitAcks], true)
      else ([.send seqNo .streamFinished, .closeSend, .latchError], true)
    else ([.send seqNo .streamFinished, .latchError], true)
  | seqNo, some e :: rest =>
    if env.sendOk seqNo then
      let r := runLoop env (seqNo + 1) rest
      (.send seqNo (.bazelEvent e) :: r.1, r.2)
    else ([.send seqNo (.bazelEvent e), .latchError], true)

-- buildEventPublisher.run: dial, open the stream, run the loop starting at
-- sequence number 1, and signal on the done channel when returning.
def runTrace (env : StreamEnv) (queue : List (Option Nat)) : List RunStep :=
  if env.dialOk then
    if env.openOk then
      let r := runLoop env 1 queue
      if r.2 then r.1 ++ [.signalDone] else r.1
    else [.latchError, .signalDone]
  else [.latchError, .signalDone]

-- The envelopes put on the wire, in order: the send steps of the trace.
def sentEnvelopes (env : StreamEnv) (queue : List (Option Nat)) : List (Nat × WirePayload) :=
  (runTrace env queue).filterMap fun s =>
    match s with
    | .send n p => some (n, p)
    | _ => none

-- Sequence-numbered bazel-event envelopes for a list of events, starting at k
-- (used only to state the ordering property).
def numberFrom (k : Nat) : List Nat → List (Nat × WirePayload)
  | [] => []
  | e :: es => (k, .bazelEvent e) :: numberFrom (k + 1) es

/-! ### Periodic progress flusher -/

-- One wakeup of the select loop in startBackgroundProgressFlush: either the
-- stop channel delivered a value, or the flush-interval timer fired.
inductive FlusherWakeup
  | stopSignal
  | tick
deriving DecidableEq

-- The goroutine body: for { select { case <-stop: break; case <-time.After(..):
-- flushProgress() } }. In Go, break inside a select breaks the select only, so
-- the for-loop continues in every case. Returns the number of flushProgress
-- calls over the given wakeups and whether the goroutine has exited.
def flusherRun : List FlusherWakeup → Nat × Bool
  | [] => (0, false)
  | .stopSignal :: rest => flusherRun rest
  | .tick :: rest =>
    let r := flusherRun rest
    (r.1 + 1, r.2)

/-! ### Invocation log -/

-- Sequential trace semantics of the invocationLog: Write appends bytes to the
-- buffer under the mutex; Consume copies the buffer contents and resets it.
inductive LogOp
  | write (b : List Nat)
  | consume
deriving DecidableEq

-- One operation applied to the buffer; Consume also yields an output.
def logApply (buf : List Nat) : LogOp → List Nat × Option (List Nat)
  | .write b => (buf ++ b, none)
  | .consume => ([], some buf)

-- Run a sequence of operations from a given buffer, collecting the outputs of
-- the Consume calls in order. Returns the final buffer and the outputs.
def logRun (buf : List Nat) : List LogOp → List Nat × List (List Nat)
  | [] => (buf, [])
  | op :: ops =>
    let s := logApply buf op
    let r := logRun s.1 ops
    match s.2 with
    | none => r
    | some o => (r.1, o :: r.2)

-- The chunks passed to Write, in order (used only to state the property).
def writesOf : List LogOp → List (List Nat)
  | [] => []
  | .write b :: ops => b :: writesOf ops
  | .consume :: ops => writesOf ops

-- Concatenation of the bytes written since the last Consume (used only to
-- state the property).
def writtenSinceLastConsume (ops : List LogOp) : List Nat :=
  ops.foldl (fun acc op =>
    match op with
    | .write b => acc ++ b
    | .consume => []) []

/-! ### Action runner Run and the driver exit code -/

-- A Go error as the runner distinguishes them: an exec.ExitError carrying the
-- numeric exit code reported by ExitCode() (which is -1 when the child was
-- killed by a signal), or any other error value.
inductive GoError
  | exitError (code : Int)
  | errorString (msg : String)
deriving DecidableEq

def noExitCode : Int := -1

-- getExitCode from the source.
def getExitCode : Option GoError → Int
  | none => 0
  | some (.exitError c) => c
  | some (.errorString _) => noExitCode

-- The two error values actionRunner.Run can return: the wrapped tokenisation
-- failure, or the error of a bazel command run.
inductive RunReturn
  | parseFailure (e : GoError)
  | commandFailure (e : GoError)
deriving DecidableEq

-- Per-command inputs of the loop in actionRunner.Run: the shlex.Split result
-- for the command string, the runCommand result, and the result of the
-- flushProgress call after the command (none means it returned nil, either
-- because the buffer was empty or because Publish succeeded).
structure CmdStep where
  tokens : Except GoError (List String)
  execErr : Option GoError
  flushErr : Option GoError

-- Inputs of one actionRunner.Run call: the results of the Publish call for the
-- Started event, of the first flushProgress, of the Publish call for the
-- WorkspaceStatus event, and the per-command inputs.
structure RunInputs where
  pubStartedErr : Option GoError
  flushStartedErr : Option GoError
  pubWorkspaceErr : Option GoError
  cmds : List CmdStep

-- The command loop of actionRunner.Run. A panic from the tokens[0] access in
-- bazelArgs propagates; a flushProgress failure returns nil; a command error
-- is returned after the flush.
def runCmdLoop : List CmdStep → Except GoPanic (Option RunReturn)
  | [] => .ok none
  | c :: rest =>
    match c.tokens with
    | .error e => .ok (some (.parseFailure e))
    | .ok tokens =>
      match bazelArgs tokens with
      | .error p => .error p
      | .ok _ =>
        if c.flushErr.isSome then .ok none
        else
          match c.execErr with
          | some e => .ok (some (.commandFailure e))
          | none => runCmdLoop rest

-- actionRunner.Run: publish Started (failure returns nil), flush progress
-- (failure returns nil), publish WorkspaceStatus (failure returns nil),
-- install the write listener and the periodic flusher, then run the commands.
def actionRunnerRun (inp : RunInputs) : Except GoPanic (Option RunReturn) :=
  if inp.pubStartedErr.isSome then .ok none
  else if inp.flushStartedErr.isSome then .ok none
  else if inp.pubWorkspaceErr.isSome then .ok none
  else runCmdLoop inp.cmds

-- Per-action exit code computed in RunAllActions and placed in the
-- BuildFinished event: 0 when Run returned nil; otherwise getExitCode of the
-- returned error, with noExitCode replaced by 1. The parseFailure case wraps
-- the error with fmt.Errorf, so it is not an exec.ExitError.
def runReturnToGoError : RunReturn → GoError
  | .parseFailure _ => .errorString "failed to parse bazel command"
  | .commandFailure e => e

def actionExitCode (runResult : Option RunReturn) : Int :=
  match runResult with
  | none => 0
  | some r =>
    let c := getExitCode (some (runReturnToGoError r))
    if c == noExitCode then 1 else c

-- Outcome of one triggered action in the RunAllActions loop: the result of
-- ar.Run and the result of bep.Wait.
structure ActionOutcome where
  runResult : Option RunReturn
  waitErr : Option GoError
deriving DecidableEq

-- fatal(status.UnavailableErrorf(..)) exits with the gRPC code of the error;
-- codes.Unavailable is 14.
def codeUnavailable : Int := 14

-- Process exit code of the driver from the RunAllActions loop onward: a failed
-- Wait exits the process with the Unavailable code; otherwise the loop runs to
-- completion, RunAllActions returns, main returns, and the process exits 0.
def runAllActionsExit : List ActionOutcome → Int
  | [] => 0
  | a :: rest => if a.waitErr.isSome then codeUnavailable else runAllActionsExit rest

/-! ### Theorems -/

theorem matchesAnyBranch_iff (bs : List String) (branch : String) :
    matchesAnyBranch bs branch = true ↔ branch ∈ bs := by
  simp only [matchesAnyBranch, List.any_eq_true, beq_iff_eq]
  exact ⟨fun ⟨b, hb, he⟩ => he ▸ hb, fun h => ⟨branch, h, rfl⟩⟩

/-- C5: matchesAnyTrigger returns false when the action has no triggers; for
event "push" with a push trigger present it returns true iff the branch is in
the push branch list; for event "pull_request" with a pull_request trigger
present it returns true iff the branch is in the pull_request branch list; in
every other case, including unknown event names, it returns false. -/
theorem c5_matchesAnyTrigger_contract (a : Action) (event branch : String) :
    (a.triggers = none → matchesAnyTrigger a event branch = false)
  ∧ (∀ t pc, a.triggers = some t → t.push = some pc → event = pushEventName →
      (matchesAnyTrigger a event branch = true ↔ branch ∈ pc.branches))
  ∧ (∀ t pc, a.triggers = some t → t.pullRequest = some pc → event = pullRequestEventName →
      (matchesAnyTrigger a event branch = true ↔ branch ∈ pc.branches))
  ∧ (∀ t, a.triggers = some t →
      (event = pushEventName → t.push = none) →
      (event = pullRequestEventName → t.pullRequest = none) →
      matchesAnyTrigger a event branch = false) := by
  refine ⟨?_, ?_, ?_, ?_⟩
  · intro h
    simp [matchesAnyTrigger, h]
  · intro t pc ht hp he
    subst he
    simp [matchesAnyTrigger, ht, triggerCaseResult, hp, matchesAnyBranch_iff]
  · intro t pc ht hp he
    subst he
    have hne : (pullRequestEventName == pushEventName) = false := by decide
    cases hpush : t.push with
    | none =>
      simp [matchesAnyTrigger, ht, triggerCaseResult, hpush, hp, matchesAnyBranch_iff]
    | some c =>
      simp [matchesAnyTrigger, ht, triggerCaseResult, hpush, hp, hne, matchesAnyBranch_iff]
  · intro t ht hpushNone hprNone
    by_cases hev : event = pushEventName
    · have hp := hpushNone hev
      subst hev
      have hne : (pushEventName == pullRequestEventName) = false := by decide
      cases hpr : t.pullRequest <;>
        simp [matchesAnyTrigger, ht, triggerCaseResult, hp, hne, hpr]
    · by_cases hev2 : event = pullRequestEventName
      · have hp := hprNone hev2
        subst hev2
        have hne : (pullRequestEventName == pushEventName) = false := by decide
        cases hpush : t.push with
        | none => simp [matchesAnyTrigger, ht, triggerCaseResult, hpush, hp]
        | some c => simp [matchesAnyTrigger, ht, triggerCaseResult, hpush, hp, hne]
      · have h1 : (event == pushEventName) = false := by
          simpa using hev
        have h2 : (event == pullRequestEventName) = false := by
          simpa using hev2
        cases hpush : t.push with
        | none =>
          cases hpr : t.pullRequest with
          | none => simp [matchesAnyTrigger, ht, triggerCaseResult, hpush, hpr]
          | some c => simp [matchesAnyTrigger, ht, triggerCaseResult, hpush, hpr, h2]
        | some c =>
          cases hpr : t.pullRequest with
          | none => simp [matchesAnyTrigger, ht, triggerCaseResult, hpush, hpr, h1]
          | some d => simp [matchesAnyTrigger, ht, triggerCaseResult, hpush, hpr, h1, h2]

theorem c5_matchesAnyTrigger_contract_witness :
    matchesAnyTrigger ⟨"build", ["bazel build"], some ⟨some ⟨["main"]⟩, none⟩⟩
      pushEventName "main" = true :=
  (c5_matchesAnyTrigger_contract ⟨"build", ["bazel build"], some ⟨some ⟨["main"]⟩, none⟩⟩
      pushEventName "main").2.1 ⟨some ⟨["main"]⟩, none⟩ ⟨["main"]⟩ rfl rfl rfl |>.mpr
    (by decide)

theorem shellCharRequiringQuote_eq_not_amended (c : Char) :
    shellCharRequiringQuote c = !amendedSafeChar c := by
  simp only [shellCharRequiringQuote, goWordChar, amendedSafeChar, claimSafeChar]
  cases h0 : decide (Char.ofNat 48 ≤ c) <;>
    cases h9 : decide (c ≤ Char.ofNat 57) <;>
      cases hA : decide (Char.ofNat 65 ≤ c) <;>
        cases hZ : decide (c ≤ Char.ofNat 90) <;>
          cases ha : decide (Char.ofNat 97 ≤ c) <;>
            cases hz : decide (c ≤ Char.ofNat 122) <;>
              cases hu : c == Char.ofNat 95 <;> simp

theorem all_amended_eq_not_match (s : List Char) :
    s.all amendedSafeChar = !shellCharsRequiringQuoteMatch s := by
  simp only [shellCharsRequiringQuoteMatch]
  induction s with
  | nil => rfl
  | cons c cs ih =>
    simp only [List.all_cons, List.any_cons, ih, shellCharRequiringQuote_eq_not_amended,
      Bool.not_or, Bool.not_not]

/-- C6 counterexample: the claim safe set (A-Za-z0-9@%+=:,. plus slash and
hyphen) omits the underscore, but the source regexp class is built on \w which
contains it; the
one-character string consisting of an underscore lies outside the claim set,
so the claim requires it to be wrapped in single quotes, yet toShellToken
returns it unchanged. -/
theorem c6_counterexample :
    toShellToken [Char.ofNat 95] = [Char.ofNat 95]
  ∧ ([Char.ofNat 95]).all claimSafeChar = false
  ∧ toShellToken [Char.ofNat 95]
      ≠ singleQuoteChar :: (replaceAllSingleQuotes [Char.ofNat 95] ++ [singleQuoteChar]) := by
  refine ⟨rfl, rfl, ?_⟩
  decide

/-- C6 (amended): with the safe character set amended to include the
underscore, matching the \w class of the source regexp, toShellToken returns a
string made only of safe characters unchanged, and otherwise wraps it in
single quotes with every embedded single quote replaced by the five-character
escape of quote, double quote, quote, double quote, quote. -/
theorem c6_toShellToken_quoting (s : List Char) :
    (s.all amendedSafeChar = true → toShellToken s = s)
  ∧ (s.all amendedSafeChar = false →
      toShellToken s = singleQuoteChar :: (replaceAllSingleQuotes s ++ [singleQuoteChar])) := by
  constructor
  · intro h
    have hm : shellCharsRequiringQuoteMatch s = false := by
      have := all_amended_eq_not_match s
      rw [h] at this
      exact (Bool.not_eq_true' _).mp this.symm
    simp [toShellToken, hm]
  · intro h
    have hm : shellCharsRequiringQuoteMatch s = true := by
      have := all_amended_eq_not_match s
      rw [h] at this
      simpa using this.symm
    simp [toShellToken, hm]

theorem c6_toShellToken_quoting_witness :
    toShellToken [Char.ofNat 97, Char.ofNat 45] = [Char.ofNat 97, Char.ofNat 45]
  ∧ toShellToken [Char.ofNat 97, Char.ofNat 32]
      = singleQuoteChar :: (replaceAllSingleQuotes [Char.ofNat 97, Char.ofNat 32] ++ [singleQuoteChar]) :=
  ⟨(c6_toShellToken_quoting [Char.ofNat 97, Char.ofNat 45]).1 (by decide),
   (c6_toShellToken_quoting [Char.ofNat 97, Char.ofNat 32]).2 (by decide)⟩

/-- C9: invocationURL joins the bes_results_url value and the invocation id
with exactly one slash at the junction: the result is always the value with
one trailing slash dropped when present, then a single slash, then the id; the
value itself differs from that junction part at most by the one trailing
slash. -/
theorem c9_invocationURL_single_slash (p id : List Char) :
    (p = stripTrailingSlash p ∨ p = stripTrailingSlash p ++ ['/'])
  ∧ invocationURL p id = stripTrailingSlash p ++ '/' :: id := by
  by_cases h : hasSlashSuffix p = true
  · have hlast : p.getLast? = some '/' := by
      have := h
      simp only [hasSlashSuffix, beq_iff_eq] at this
      exact this
    have hdrop : p.dropLast ++ ['/'] = p :=
      List.dropLast_append_getLast? '/' hlast
    constructor
    · right
      simp [stripTrailingSlash, h, hdrop]
    · simp only [invocationURL, stripTrailingSlash, h, if_pos]
      rw [← hdrop]
      simp
  · have h' : hasSlashSuffix p = false := by
      simpa using h
    constructor
    · left
      simp [stripTrailingSlash, h']
    · simp [invocationURL, stripTrailingSlash, h']

/-- C10: bazelArgs reads the first token unconditionally; for every command
whose tokenisation yields at least one token the access is in bounds and the
function returns the token list without error, with a leading bazel or
bazelisk token dropped; on an empty token list the access is out of bounds, so
the non-empty precondition is required. -/
theorem c10_bazelArgs_head_access (tokens : List String) (h : tokens ≠ []) :
    bazelArgs tokens =
      .ok (if tokens.head h = "bazel" ∨ tokens.head h = "bazelisk"
           then tokens.tail else tokens)
  ∧ bazelArgs [] = .error .indexOutOfRange := by
  constructor
  · match tokens, h with
    | t :: ts, _ =>
      by_cases hb : t = "bazel" ∨ t = "bazelisk"
      · have hbeq : (t == "bazel" || t == "bazelisk") = true := by
          rcases hb with h1 | h1 <;> simp [h1]
        simp [bazelArgs, hbeq, hb]
      · push_neg at hb
        have hbeq : (t == "bazel" || t == "bazelisk") = false := by
          simp [hb.1, hb.2]
        simp [bazelArgs, hbeq, hb.1, hb.2]
  · rfl

theorem c10_bazelArgs_head_access_witness :
    bazelArgs ["bazel", "build"] = Except.ok ["build"] :=
  (c10_bazelArgs_head_access ["bazel", "build"] (by decide)).1.trans
    (congrArg Except.ok (if_pos (Or.inl rfl)))

theorem logRun_fst (ops : List LogOp) : ∀ b : List Nat,
    (logRun b ops).1 = ops.foldl (fun acc op =>
      match op with
      | .write c => acc ++ c
      | .consume => []) b := by
  induction ops with
  | nil => intro b; rfl
  | cons op rest ih =>
    intro b
    cases op with
    | write c => simpa [logRun, logApply] using ih (b ++ c)
    | consume => simpa [logRun, logApply] using ih []

theorem logRun_snd_concat (ops : List LogOp) : ∀ b : List Nat,
    (logRun b (ops ++ [.consume])).2 = (logRun b ops).2 ++ [(logRun b ops).1] := by
  induction ops with
  | nil => intro b; rfl
  | cons op rest ih =>
    intro b
    cases op with
    | write c => simpa [logRun, logApply] using ih (b ++ c)
    | consume => simpa [logRun, logApply] using ih []

theorem logRun_conservation (ops : List LogOp) : ∀ b : List Nat,
    (logRun b ops).2.flatten ++ (logRun b ops).1 = b ++ (writesOf ops).flatten := by
  induction ops with
  | nil => intro b; simp [logRun, writesOf]
  | cons op rest ih =>
    intro b
    cases op with
    | write c =>
      have := ih (b ++ c)
      simpa [logRun, logApply, writesOf, List.append_assoc] using this
    | consume =>
      have := ih []
      simp [logRun, logApply, writesOf]
      simpa [List.append_assoc] using this

/-- C7: the invocation log consume operation atomically swaps out the
accumulated bytes: appending a Consume to any operation sequence yields, as the
output of that call, exactly the bytes written since the previous Consume, and
across any operation sequence the concatenation of all Consume outputs plus
the residual buffer equals the concatenation of all written chunks in order,
so no written byte is lost and none appears in two Consume outputs. -/
theorem c7_invocationLog_consume (ops : List LogOp) :
    (logRun [] (ops ++ [.consume])).2 = (logRun [] ops).2 ++ [writtenSinceLastConsume ops]
  ∧ (logRun [] ops).2.flatten ++ (logRun [] ops).1 = (writesOf ops).flatten := by
  constructor
  · rw [logRun_snd_concat, writtenSinceLastConsume, ← logRun_fst]
  · simpa using logRun_conservation ops []

theorem runCmdLoop_commandFailure (cmds : List CmdStep) (e : GoError)
    (h : runCmdLoop cmds = .ok (some (.commandFailure e))) :
    ∃ c ∈ cmds, c.execErr = some e ∧ c.flushErr = none := by
  induction cmds with
  | nil => exact absurd h (by simp [runCmdLoop])
  | cons c rest ih =>
    obtain ⟨ctok, cexec, cflush⟩ := c
    cases ctok with
    | error e2 => simp [runCmdLoop] at h
    | ok tokens =>
      cases hargs : bazelArgs tokens with
      | error p => simp [runCmdLoop, hargs] at h
      | ok args =>
        cases cflush with
        | some f => simp [runCmdLoop, hargs] at h
        | none =>
          cases cexec with
          | some e2 =>
            simp [runCmdLoop, hargs] at h
            exact ⟨⟨.ok tokens, some e2, none⟩, by simp, by simp [h], rfl⟩
          | none =>
            simp [runCmdLoop, hargs] at h
            obtain ⟨c2, hmem, h1, h2⟩ := ih h
            exact ⟨c2, by simp [hmem], h1, h2⟩

theorem runCmdLoop_parseFailure (cmds : List CmdStep) (e : GoError)
    (h : runCmdLoop cmds = .ok (some (.parseFailure e))) :
    ∃ c ∈ cmds, c.tokens = .error e := by
  induction cmds with
  | nil => exact absurd h (by simp [runCmdLoop])
  | cons c rest ih =>
    obtain ⟨ctok, cexec, cflush⟩ := c
    cases ctok with
    | error e2 =>
      simp [runCmdLoop] at h
      exact ⟨⟨.error e2, cexec, cflush⟩, by simp, by simp [h]⟩
    | ok tokens =>
      cases hargs : bazelArgs tokens with
      | error p => simp [runCmdLoop, hargs] at h
      | ok args =>
        cases cflush with
        | some f => simp [runCmdLoop, hargs] at h
        | none =>
          cases cexec with
          | some e2 => simp [runCmdLoop, hargs] at h
          | none =>
            simp [runCmdLoop, hargs] at h
            obtain ⟨c2, hmem, h1⟩ := ih h
            exact ⟨c2, by simp [hmem], h1⟩

/-- C8: inside actionRunner.Run every Publish failure is swallowed: a failed
Publish of the Started event, a failed first progress flush, a failed Publish
of the WorkspaceStatus event, and a failed progress flush inside the command
loop each make Run return nil; the only non-nil errors Run can return are a
bazel-command tokenisation failure and a bazel command execution error. -/
theorem c8_run_swallows_publish_errors (inp : RunInputs) :
    (inp.pubStartedErr.isSome = true → actionRunnerRun inp = .ok none)
  ∧ (inp.pubStartedErr = none → inp.flushStartedErr.isSome = true →
      actionRunnerRun inp = .ok none)
  ∧ (inp.pubStartedErr = none → inp.flushStartedErr = none →
      inp.pubWorkspaceErr.isSome = true → actionRunnerRun inp = .ok none)
  ∧ (∀ c rest ts, c.tokens = .ok ts → ts ≠ [] → c.flushErr.isSome = true →
      runCmdLoop (c :: rest) = .ok none)
  ∧ (∀ e, actionRunnerRun inp = .ok (some (.commandFailure e)) →
      ∃ c ∈ inp.cmds, c.execErr = some e ∧ c.flushErr = none)
  ∧ (∀ e, actionRunnerRun inp = .ok (some (.parseFailure e)) →
      ∃ c ∈ inp.cmds, c.tokens = .error e) := by
  refine ⟨?_, ?_, ?_, ?_, ?_, ?_⟩
  · intro h
    simp [actionRunnerRun, h]
  · intro h1 h2
    simp [actionRunnerRun, h1, h2]
  · intro h1 h2 h3
    simp [actionRunnerRun, h1, h2, h3]
  · intro c rest ts htok hne hflush
    obtain ⟨t, ts2, rfl⟩ : ∃ t ts2, ts = t :: ts2 := by
      cases ts with
      | nil => exact absurd rfl hne
      | cons a b => exact ⟨a, b, rfl⟩
    obtain ⟨ctok, cexec, cflush⟩ := c
    simp only at htok hflush
    subst htok
    simp [runCmdLoop, bazelArgs, hflush]
  · intro e h
    rw [actionRunnerRun] at h
    by_cases h1 : inp.pubStartedErr.isSome = true
    · rw [if_pos h1] at h
      simp at h
    · rw [if_neg h1] at h
      by_cases h2 : inp.flushStartedErr.isSome = true
      · rw [if_pos h2] at h
        simp at h
      · rw [if_neg h2] at h
        by_cases h3 : inp.pubWorkspaceErr.isSome = true
        · rw [if_pos h3] at h
          simp at h
        · rw [if_neg h3] at h
          exact runCmdLoop_commandFailure inp.cmds e h
  · intro e h
    rw [actionRunnerRun] at h
    by_cases h1 : inp.pubStartedErr.isSome = true
    · rw [if_pos h1] at h
      simp at h
    · rw [if_neg h1] at h
      by_cases h2 : inp.flushStartedErr.isSome = true
      · rw [if_pos h2] at h
        simp at h
      · rw [if_neg h2] at h
        by_cases h3 : inp.pubWorkspaceErr.isSome = true
        · rw [if_pos h3] at h
          simp at h
        · rw [if_neg h3] at h
          exact runCmdLoop_parseFailure inp.cmds e h

theorem c8_run_swallows_publish_errors_witness :
    actionRunnerRun ⟨some (.errorString "stream closed"), none, none, []⟩ = .ok none :=
  (c8_run_swallows_publish_errors ⟨some (.errorString "stream closed"), none, none, []⟩).1 rfl

/-- C2 counterexample: an action whose single bazel command exits with code 1
while every publish succeeds (Wait returns nil) gives a BuildFinished exit
code of 1, yet RunAllActions returns normally and the process exit code is 0,
not 1. -/
theorem c2_counterexample :
    runAllActionsExit [⟨some (.commandFailure (.exitError 1)), none⟩] = 0
  ∧ actionExitCode (some (.commandFailure (.exitError 1))) = 1
  ∧ (0 : Int) ≠ 1 := by
  refine ⟨rfl, by decide, by decide⟩

/-- C2 (amended): when a bazel command child exits with numeric code N, the
BuildFinished event for the action carries exit code N (with the noExitCode
sentinel mapped to 1), but the exit code is never propagated to the process:
whenever every publisher Wait returns nil, the RunAllActions loop completes
and the driver process exits 0. -/
theorem c2_exit_code_not_propagated (outcomes : List ActionOutcome)
    (h : ∀ a ∈ outcomes, a.waitErr = none) :
    runAllActionsExit outcomes = 0
  ∧ ∀ n : Int, n ≠ noExitCode →
      actionExitCode (some (.commandFailure (.exitError n))) = n := by
  constructor
  · induction outcomes with
    | nil => rfl
    | cons a rest ih =>
      have ha : a.waitErr = none := h a (by simp)
      have hrest := ih (fun x hx => h x (by simp [hx]))
      simp [runAllActionsExit, ha, hrest]
  · intro n hn
    have : (n == noExitCode) = false := by
      simpa using hn
    simp [actionExitCode, runReturnToGoError, getExitCode, this]

theorem c2_exit_code_not_propagated_witness :
    runAllActionsExit [⟨some (.commandFailure (.exitError 2)), none⟩] = 0
  ∧ actionExitCode (some (.commandFailure (.exitError 2))) = 2 :=
  ⟨(c2_exit_code_not_propagated [⟨some (.commandFailure (.exitError 2)), none⟩]
      (by decide)).1,
   (c2_exit_code_not_propagated [⟨some (.commandFailure (.exitError 2)), none⟩]
      (by decide)).2 2 (by decide)⟩

/-- C4: the select loop spawned by startBackgroundProgressFlush does not stop
on the stop signal: on the wakeup sequence stop-then-tick it performs one
further flushProgress call after the stop signal was received, and on every
wakeup sequence the goroutine has not exited, because the break statement
leaves only the select and the for-loop continues. -/
theorem c4_flusher_never_stops :
    flusherRun [.stopSignal, .tick] = (1, false)
  ∧ ∀ ws : List FlusherWakeup, (flusherRun ws).2 = false := by
  constructor
  · rfl
  · intro ws
    induction ws with
    | nil => rfl
    | cons w rest ih => cases w <;> simp [flusherRun, ih]

theorem runLoop_all_ok (env : StreamEnv) (hs : ∀ n, env.sendOk n = true)
    (hc : env.closeOk = true) (evs : List Nat) : ∀ (k : Nat) (rest : List (Option Nat)),
    runLoop env k (evs.map some ++ none :: rest)
      = ((numberFrom k evs).map (fun p => RunStep.send p.1 p.2)
          ++ [.send (k + evs.length) .streamFinished, .closeSend, .awaitAcks], true) := by
  induction evs with
  | nil =>
    intro k rest
    simp [runLoop, hs k, hc, numberFrom]
  | cons e es ih =>
    intro k rest
    have h1 := ih (k + 1) rest
    have hlen : k + (es.length + 1) = k + 1 + es.length := by omega
    simp [runLoop, hs k, h1, numberFrom, hlen]

theorem filterMap_send_map (l : List (Nat × WirePayload)) :
    List.filterMap ((fun s =>
      match s with
      | RunStep.send n p => some (n, p)
      | _ => none) ∘ fun p => RunStep.send p.1 p.2) l = l := by
  induction l with
  | nil => rfl
  | cons p ps ih => simp [Function.comp, ih]

theorem numberFrom_fst_concat (evs : List Nat) : ∀ k : Nat,
    ((numberFrom k evs).map Prod.fst) ++ [k + evs.length] =
      List.range' k (evs.length + 1) := by
  induction evs with
  | nil =>
    intro k
    simp [numberFrom, List.range'_succ]
  | cons e es ih =>
    intro k
    have harith : k + (es.length + 1) = k + 1 + es.length := by omega
    rw [List.length_cons, List.range'_succ, numberFrom]
    simp only [List.map_cons, List.cons_append]
    rw [harith, ih (k + 1)]

/-- C1: on a run where the queue holds N build events followed by the sentinel
and every Send succeeds, the wire envelopes are exactly the events in publish
order with sequence numbers 1..N, followed by exactly one
ComponentStreamFinished envelope with sequence number N+1; the sequence
numbers on the wire are exactly the range 1..N+1 with no gap or repetition and
the finished envelope is last. -/
theorem c1_publisher_sequence_numbers (env : StreamEnv) (evs : List Nat)
    (rest : List (Option Nat)) (hd : env.dialOk = true) (ho : env.openOk = true)
    (hs : ∀ n, env.sendOk n = true) (hc : env.closeOk = true) :
    sentEnvelopes env (evs.map some ++ none :: rest)
      = numberFrom 1 evs ++ [(evs.length + 1, .streamFinished)]
  ∧ (sentEnvelopes env (evs.map some ++ none :: rest)).map Prod.fst
      = List.range' 1 (evs.length + 1) := by
  have hmain : sentEnvelopes env (evs.map some ++ none :: rest)
      = numberFrom 1 evs ++ [(evs.length + 1, .streamFinished)] := by
    simp only [sentEnvelopes, runTrace, hd, ho, if_true,
      runLoop_all_ok env hs hc evs 1 rest]
    simp [List.filterMap_append, filterMap_send_map, Nat.add_comm]
  refine ⟨hmain, ?_⟩
  rw [hmain, List.map_append]
  have h1 := numberFrom_fst_concat evs 1
  rw [Nat.add_comm 1 evs.length] at h1
  simpa using h1

theorem c1_publisher_sequence_numbers_witness :
    sentEnvelopes ⟨true, true, fun _ => true, true⟩ (([5] : List Nat).map some ++ none :: [])
      = numberFrom 1 [5] ++ [(([5] : List Nat).length + 1, WirePayload.streamFinished)]
  ∧ (sentEnvelopes ⟨true, true, fun _ => true, true⟩
        (([5] : List Nat).map some ++ none :: [])).map Prod.fst
      = List.range' 1 (([5] : List Nat).length + 1) :=
  c1_publisher_sequence_numbers ⟨true, true, fun _ => true, true⟩ [5] []
    rfl rfl (fun _ => rfl) rfl

/-- C3: when the publisher task dequeues the sentinel and the Send of the
final ComponentStreamFinished envelope succeeds (and the stream had no other
send error), the task half-closes the send side, then awaits the ack-receiver
completion, and only then signals on the done channel: the trace ends with
CloseSend, then the wait on doneReceiving, then the done signal. -/
theorem c3_publisher_close_handshake (env : StreamEnv) (evs : List Nat)
    (rest : List (Option Nat)) (hd : env.dialOk = true) (ho : env.openOk = true)
    (hs : ∀ n, env.sendOk n = true) (hc : env.closeOk = true) :
    ∃ steps, runTrace env (evs.map some ++ none :: rest)
      = steps ++ [.closeSend, .awaitAcks, .signalDone] := by
  refine ⟨(numberFrom 1 evs).map (fun p => RunStep.send p.1 p.2)
      ++ [.send (1 + evs.length) .streamFinished], ?_⟩
  simp [runTrace, hd, ho, runLoop_all_ok env hs hc evs 1 rest]

theorem c3_publisher_close_handshake_witness :
    ∃ steps, runTrace ⟨true, true, fun _ => true, true⟩
        (([] : List Nat).map some ++ none :: [])
      = steps ++ [RunStep.closeSend, RunStep.awaitAcks, RunStep.signalDone] :=
  c3_publisher_close_handshake ⟨true, true, fun _ => true, true⟩ [] []
    rfl rfl (fun _ => rfl) rfl

end ActionRunner
